import Mathlib

/-!
Verification of the MOF account auto-mapping classifier
(`ebalance/api/auto_mapping.py`).

Text is modelled at the level of Unicode scalar values (`List Char`),
matching Python string semantics for the operations the classifier uses:
`str.lower` (modelled for ASCII and Mongolian Cyrillic, the alphabets of
the catalog), `str.strip`, `str.split`, substring containment (`in`),
slicing (`[:4]`) and length.  The keyword catalog `ACCOUNT_KEYWORDS` is
transcribed verbatim; a Python `dict` is an insertion-ordered association
list with unique keys, and a Python `set` is a deduplicated list (the
classifier only sums over it, so iteration order is irrelevant).
The frozenset of existing MOF codes is modelled as a `List String`
used only through membership.
-/

namespace EBalance

/-- Python whitespace test on a character (the characters `str.strip` and
`str.split` treat as whitespace, restricted to ASCII). -/
def isWs (c : Char) : Bool :=
  c.toNat == 32 || c.toNat == 9 || c.toNat == 10 || c.toNat == 13 ||
  c.toNat == 11 || c.toNat == 12

/-- Python `str.lower` on one character, for ASCII `A`–`Z` and Mongolian
Cyrillic (`А`–`Я`, `Ё`, `Ө`, `Ү`); identity elsewhere. -/
def pyLowerChar (c : Char) : Char :=
  if 65 ≤ c.toNat ∧ c.toNat ≤ 90 then Char.ofNat (c.toNat + 32)
  else if 1040 ≤ c.toNat ∧ c.toNat ≤ 1071 then Char.ofNat (c.toNat + 32)
  else if c.toNat = 1025 then Char.ofNat 1105
  else if c.toNat = 1256 then Char.ofNat 1257
  else if c.toNat = 1198 then Char.ofNat 1199
  else c

/-- Python `str.lower` on a character list. -/
def lowerList (l : List Char) : List Char := l.map pyLowerChar

/-- Python `str.lower` on a string, as a character list. -/
def lowerStr (s : String) : List Char := lowerList s.toList

/-- Python `str.strip`: drop leading and trailing whitespace. -/
def pyStrip (l : List Char) : List Char :=
  ((l.dropWhile isWs).reverse.dropWhile isWs).reverse

/-- `startsWith n h`: `n` is an initial segment of `h`. -/
def startsWith : List Char → List Char → Bool
  | [], _ => true
  | _ :: _, [] => false
  | a :: as, b :: bs => a == b && startsWith as bs

/-- Python substring containment `needle in hay`. -/
def occursIn (needle : List Char) : List Char → Bool
  | [] => startsWith needle []
  | b :: bs => startsWith needle (b :: bs) || occursIn needle bs

/-- Helper for `wordCount`: the flag records whether the previous character
was part of a word. -/
def wcAux : Bool → List Char → Nat
  | _, [] => 0
  | inWord, c :: t =>
    if isWs c then wcAux false t
    else if inWord then wcAux true t
    else 1 + wcAux true t

/-- `len(s.split())` in Python: the number of maximal whitespace-free runs. -/
def wordCount (l : List Char) : Nat := wcAux false l

/-- The keyword catalog `ACCOUNT_KEYWORDS`, transcribed from the source. -/
def ACCOUNT_KEYWORDS : List (String × List String) := [
  ("1111", ["cash on hand", "petty cash", "касс", "бэлэн мөнгө", "кассан дахь"]),
  ("1112", ["bank", "checking", "current account", "mnt", "төгрөг", "харилцах данс"]),
  ("1113", ["foreign currency", "usd", "eur", "cny", "гадаад валют"]),
  ("1114", ["restricted cash", "escrow", "хязгаарлагдсан"]),
  ("1120", ["short-term deposit", "savings", "хадгаламж", "богино хугацаат"]),
  ("1200", ["receivables", "авлага"]),
  ("1201", ["trade receivable", "domestic receivable", "customer receivable", "debtor", "дотоодын", "харилцагчаас авах"]),
  ("1202", ["foreign receivable", "export receivable", "гадаадын"]),
  ("1203", ["notes receivable", "вексел"]),
  ("1204", ["employee receivable", "staff loan", "ажилтнуудаас"]),
  ("1205", ["allowance", "doubtful", "bad debt reserve", "нөөц"]),
  ("1300", ["inventory", "stock", "бараа материал"]),
  ("1301", ["raw material", "supplies", "түүхий эд", "материал"]),
  ("1302", ["work in progress", "wip", "дуусаагүй үйлдвэрлэл"]),
  ("1303", ["finished goods", "бэлэн бүтээгдэхүүн"]),
  ("1304", ["merchandise", "goods for resale", "бараа бүтээгдэхүүн"]),
  ("1305", ["goods in transit", "замд"]),
  ("1306", ["inventory write-down", "obsolete", "бууралт"]),
  ("1400", ["other current asset", "бусад эргэлтийн"]),
  ("1410", ["short-term investment", "санхүүгийн хөрөнгө"]),
  ("1420", ["short-term loan issued", "loan receivable", "зээл олгосон"]),
  ("1430", ["vat receivable", "input vat", "нөат авлага"]),
  ("1440", ["excise receivable", "онцгой албан татвар"]),
  ("1450", ["other tax receivable", "бусад татвар"]),
  ("1460", ["prepaid expense", "prepayment", "урьдчилж төлсөн"]),
  ("1470", ["advance to supplier", "supplier advance", "урьдчилгаа"]),
  ("1500", ["held for sale", "disposal group", "борлуулж буй"]),
  ("1600", ["biological current", "биологийн"]),
  ("1700", ["other current", "miscellaneous", "ангилагдаагүй"]),
  ("1800", ["ppe", "fixed asset", "property plant equipment", "үндсэн хөрөнгө"]),
  ("1801", ["land", "газар"]),
  ("1802", ["building", "structure", "барилга", "байгууламж"]),
  ("1803", ["machinery", "equipment", "machine", "машин", "тоног төхөөрөмж"]),
  ("1804", ["vehicle", "car", "truck", "тээврийн хэрэгсэл"]),
  ("1805", ["mining equipment", "specialized", "уул уурхай", "тусгай"]),
  ("1810", ["construction in progress", "cwip", "баригдаж буй"]),
  ("1820", ["accumulated depreciation building", "building depreciation", "барилгын элэгдэл"]),
  ("1821", ["accumulated depreciation machinery", "equipment depreciation", "машин элэгдэл"]),
  ("1822", ["accumulated depreciation vehicle", "vehicle depreciation", "тээврийн элэгдэл"]),
  ("1829", ["accumulated depreciation other", "other depreciation", "бусад элэгдэл"]),
  ("1900", ["intangible", "биет бус хөрөнгө"]),
  ("1901", ["software", "license", "программ хангамж"]),
  ("1902", ["license", "right", "patent", "лиценз", "эрх"]),
  ("1903", ["goodwill", "гүүдвилл"]),
  ("1910", ["amortization", "intangible depreciation", "биет бус элэгдэл"]),
  ("1950", ["long-term investment", "урт хугацаат хөрөнгө оруулалт"]),
  ("1951", ["equity investment", "shares investment", "хувьцаа"]),
  ("1952", ["debt investment", "bond investment", "өрийн хэрэгсэл"]),
  ("1960", ["long-term loan issued", "урт хугацаат зээл"]),
  ("1970", ["biological non-current", "биологийн урт"]),
  ("1980", ["deferred tax asset", "dta", "хойшлогдсон татвар хөрөнгө"]),
  ("1990", ["other non-current", "бусад эргэлтийн бус"]),
  ("2110", ["trade payable", "accounts payable", "supplier payable", "creditor", "нийлүүлэгчид"]),
  ("2120", ["short-term bank loan", "bank overdraft", "банкны зээл богино"]),
  ("2130", ["current portion", "long-term due", "богино хугацаат хэсэг"]),
  ("2140", ["related party borrowing", "intercompany loan", "холбогдох этгээд"]),
  ("2150", ["advance from customer", "deferred revenue", "урьдчилгаа авсан"]),
  ("2160", ["salary payable", "wages payable", "цалин өглөг"]),
  ("2170", ["social insurance payable", "нийгмийн даатгал"]),
  ("2180", ["personal income tax payable", "pit payable", "хувийн орлогын татвар"]),
  ("2190", ["other payable", "accrued expense", "бусад өглөг"]),
  ("2200", ["taxes payable", "татварын өглөг"]),
  ("2210", ["vat payable", "output vat", "нөат өглөг"]),
  ("2220", ["excise payable", "онцгой албан татвар өглөг"]),
  ("2230", ["corporate income tax", "cit payable", "ааноат"]),
  ("2240", ["customs duty", "import duty", "гаалийн"]),
  ("2250", ["environmental fee", "байгаль орчин"]),
  ("2300", ["provision current", "резерв"]),
  ("2310", ["provision bonus", "vacation accrual", "шагнал", "амралт"]),
  ("2320", ["warranty provision", "баталгаат"]),
  ("2330", ["tax provision", "penalty provision", "торгууль"]),
  ("2400", ["non-current liability", "урт хугацаат өр"]),
  ("2410", ["long-term bank loan", "урт хугацаат банкны зээл"]),
  ("2420", ["bonds issued", "bond payable", "гаргасан бонд"]),
  ("2430", ["lease liability", "finance lease", "түрээс"]),
  ("2440", ["related party long-term", "холбогдох урт"]),
  ("2450", ["deferred tax liability", "dtl", "хойшлогдсон татвар өр"]),
  ("2460", ["decommissioning", "asset retirement", "нөхөн сэргээлт"]),
  ("2490", ["other non-current liability", "бусад урт хугацаат"]),
  ("3100", ["share capital", "capital stock", "хувь нийлүүлсэн"]),
  ("3110", ["ordinary share", "common stock", "энгийн хувьцаа"]),
  ("3120", ["preferred share", "preference share", "давуу эрхтэй"]),
  ("3200", ["additional paid-in", "share premium", "давхардуулан"]),
  ("3300", ["retained earnings", "accumulated profit", "хуримтлагдсан ашиг"]),
  ("3310", ["current year profit", "net income", "тайлант жилийн"]),
  ("3400", ["reserve", "нөөцийн сан"]),
  ("3410", ["legal reserve", "statutory reserve", "хуулийн"]),
  ("3420", ["other reserve", "бусад нөөц"]),
  ("3500", ["treasury share", "share buyback", "дахин худалдаж"]),
  ("3600", ["non-controlling interest", "minority interest", "хяналтын бус"]),
  ("4100", ["sales revenue excise", "онцгой албан татвартай бараа"]),
  ("4110", ["sales revenue", "revenue from goods", "борлуулалтын орлого"]),
  ("4120", ["service revenue", "үйлчилгээний орлого"]),
  ("4130", ["export revenue", "экспорт"]),
  ("4140", ["domestic revenue", "дотоодын"]),
  ("4200", ["other operating income", "үйл ажиллагааны бусад"]),
  ("4210", ["subsidy", "grant income", "татаас"]),
  ("4220", ["gain on disposal", "ppe disposal gain", "борлуулалтын олз"]),
  ("4230", ["penalty income", "fine income", "торгууль орлого"]),
  ("4300", ["finance income", "санхүүгийн орлого"]),
  ("4310", ["interest income", "хүүгийн орлого"]),
  ("4320", ["forex gain", "exchange gain", "ханшийн ашиг"]),
  ("4330", ["fair value gain", "revaluation gain", "үнэлгээний олз"]),
  ("4400", ["other non-operating income", "бусад үйл ажиллагааны бус"]),
  ("5100", ["cost of goods sold excise", "онцгой албан татвартай өртөг"]),
  ("5110", ["cost of goods sold", "cogs", "борлуулсан барааны өртөг"]),
  ("5120", ["cost of services", "үйлчилгээний өртөг"]),
  ("5130", ["cost of resale goods", "дахин борлуулах"]),
  ("6100", ["selling expense", "distribution cost", "борлуулалт"]),
  ("6110", ["advertising", "marketing", "сурталчилгаа"]),
  ("6120", ["transportation", "logistics", "тээвэр"]),
  ("6130", ["sales salary", "commission", "борлуулалтын цалин"]),
  ("6200", ["administrative expense", "general expense", "удирдлагын"]),
  ("6210", ["office salary", "admin salary", "оффис цалин"]),
  ("6220", ["social insurance expense", "ндш"]),
  ("6230", ["rent expense", "office rent", "түрээс"]),
  ("6240", ["utilities", "electricity", "коммунал"]),
  ("6250", ["travel expense", "business travel", "томилолт"]),
  ("6260", ["professional fee", "consulting fee", "audit fee", "мэргэжлийн"]),
  ("6300", ["depreciation expense", "элэгдлийн зардал"]),
  ("6310", ["depreciation ppe", "үндсэн хөрөнгийн элэгдэл"]),
  ("6320", ["amortization intangible", "биет бус элэгдэл"]),
  ("6400", ["other tax expense", "бусад татвар"]),
  ("6410", ["property tax", "хөрөнгийн татвар"]),
  ("6420", ["vehicle tax", "road fee", "авто зам"]),
  ("6500", ["repair", "maintenance", "засвар"]),
  ("6600", ["bad debt expense", "авлагын алдагдал"]),
  ("6700", ["inventory write-down", "бараа бууралт"]),
  ("6800", ["impairment", "хөрөнгийн бууралт"]),
  ("7100", ["interest expense", "хүүгийн зардал"]),
  ("7200", ["forex loss", "exchange loss", "ханшийн алдагдал"]),
  ("7300", ["bank fee", "bank charge", "банкны шимтгэл"]),
  ("8100", ["loss on disposal", "ppe disposal loss", "борлуулалтын алдагдал"]),
  ("8200", ["penalty expense", "fine expense", "торгууль зардал"]),
  ("8300", ["charity", "donation", "sponsorship", "буцалтгүй тусламж"]),
  ("9100", ["current tax expense", "cit expense", "тухайн үеийн татвар"]),
  ("9200", ["deferred tax expense", "хойшлогдсон татвар"]),
  ("9300", ["excise tax expense", "онцгой албан татвар зардал"])]

/-- `ROOT_TYPE_RANGES`, transcribed from the source: leading catalog-code
digit(s) allowed for each ERPNext root type. -/
def ROOT_TYPE_RANGES : List (String × List Char) := [
  ("Asset", ['1']),
  ("Liability", ['2']),
  ("Equity", ['3']),
  ("Income", ['4']),
  ("Expense", ['5', '6', '7', '8', '9'])]

/-- The catalog codes in dictionary (insertion) order:
`ACCOUNT_KEYWORDS.keys()`. -/
def catalogCodes : List String := ACCOUNT_KEYWORDS.map Prod.fst

/-- The keyword lists of one code: `ACCOUNT_KEYWORDS[code]` as an `Option`. -/
def lookupKeywords (code : String) : Option (List String) :=
  (ACCOUNT_KEYWORDS.find? (fun p => p.1 == code)).map Prod.snd

/-- The lowercase keyword set built by `_init_keyword_cache` for one code:
`{kw.lower() for kw in keywords}`, as a deduplicated list. -/
def lowerSet (kws : List String) : List (List Char) :=
  (kws.map lowerStr).dedup

/-- The `max_words` component of the keyword cache entry (stored but never
used by the scorer). -/
def maxWords (kws : List String) : Nat :=
  kws.foldl (fun m kw => max m (wordCount kw.toList)) 0

/-- The `_KEYWORD_CACHE` entry for one code. -/
def keywordCache (code : String) : Option (List (List Char) × Nat) :=
  (lookupKeywords code).map (fun kws => (lowerSet kws, maxWords kws))

/-- `mof_code[0] in ROOT_TYPE_RANGES[root_type]`: the code's first character
is in the range list of the given root type. -/
def codeMatchesRoot (rt : String) (code : String) : Bool :=
  match ROOT_TYPE_RANGES.find? (fun p => p.1 == rt) with
  | some p =>
    match code.toList.head? with
    | some c => p.2.contains c
    | none => false
  | none => false

/-- `_MOF_CODES_BY_ROOT.get(rt)`: the catalog codes whose first digit falls
in the root type's ranges; the key is absent (`none`) when no code matches,
exactly as the lazily-built Python dict. -/
def mofCodesByRoot (rt : String) : Option (List String) :=
  let l := catalogCodes.filter (codeMatchesRoot rt)
  if l.isEmpty then none else some l

/-- `_MOF_CODES_BY_ROOT.get(account.root_type, list(ACCOUNT_KEYWORDS.keys()))`. -/
def compatibleCodes (rt : String) : List String :=
  (mofCodesByRoot rt).getD catalogCodes

/-- The fields of an ERPNext `Account` the classifier reads.  A missing
(`None`) number or name is modelled as `""`, which Python treats
identically under the truthiness tests and `or ""` the code applies. -/
structure Account where
  account_number : String
  account_name : String
  root_type : String
deriving DecidableEq

/-- `_normalize_text`: `text.lower().strip()`. -/
def normalize_text (s : String) : List Char := pyStrip (lowerStr s)

/-- `_calculate_keyword_score_fast`: sum of `len(keyword.split())` over the
keywords of the (deduplicated) set that occur in the text.  The `max_words`
argument is accepted and ignored, as in the source. -/
def calculate_keyword_score_fast (text : List Char) :
    List (List Char) → Nat → Nat
  | [], _ => 0
  | k :: rest, mw =>
    (if occursIn k text then wordCount k else 0) +
      calculate_keyword_score_fast text rest mw

/-- The score strategy 3 computes for one candidate code (0 when the code
has no cache entry, in which case the loop skips it). -/
def scoreOf (text : List Char) (code : String) : Nat :=
  match keywordCache code with
  | some (ks, mw) => calculate_keyword_score_fast text ks mw
  | none => 0

/-- The body of the strategy-3 loop of `find_best_mof_match_fast`: thread
`(best_match, best_score)` through the candidate codes, skipping codes not
in `existing` or without a cache entry, updating on strict improvement. -/
def keywordLoop (text : List Char) (existing : List String) :
    List String → Option String × Nat → Option String × Nat
  | [], st => st
  | code :: rest, st =>
    keywordLoop text existing rest
      (if code ∈ existing then
        match keywordCache code with
        | none => st
        | some (ks, mw) =>
          if st.2 < calculate_keyword_score_fast text ks mw then
            (some code, calculate_keyword_score_fast text ks mw)
          else st
      else st)

/-- `find_best_mof_match_fast`. -/
def find_best_mof_match_fast (account : Account)
    (existing_mof_codes : List String) : Option String :=
  if account.account_number ≠ "" ∧ account.account_number ∈ existing_mof_codes then
    some account.account_number
  else if account.account_number ≠ "" ∧ 4 ≤ account.account_number.toList.length ∧
      String.mk (account.account_number.toList.take 4) ∈ existing_mof_codes then
    some (String.mk (account.account_number.toList.take 4))
  else if normalize_text account.account_name = [] then none
  else if 2 ≤ (keywordLoop (normalize_text account.account_name) existing_mof_codes
      (compatibleCodes account.root_type) (none, 0)).2 then
    (keywordLoop (normalize_text account.account_name) existing_mof_codes
      (compatibleCodes account.root_type) (none, 0)).1
  else none

/-- One suggestion entry, as built by `get_suggestions_fast` (the optional
display-name fields added by the enrichment query carry no logic and are
omitted). -/
structure Suggestion where
  mof_code : String
  score : Nat
deriving DecidableEq

/-- Insert into a descending-sorted list after all entries of score ≥ its
own, matching the stability of Python's `list.sort(reverse=True)`. -/
def insertDesc (s : Suggestion) : List Suggestion → List Suggestion
  | [] => [s]
  | t :: ts => if s.score ≤ t.score then t :: insertDesc s ts else s :: t :: ts

/-- `suggestions.sort(key=lambda x: x["score"], reverse=True)`: stable
descending sort by score. -/
def sortDesc (l : List Suggestion) : List Suggestion :=
  l.foldl (fun acc s => insertDesc s acc) []

/-- One iteration of the `get_suggestions_fast` loop: the suggestion entry
appended for `code`, if any (skips codes outside `existing` or without a
cache entry, and zero scores). -/
def suggestionFor (text : List Char) (existing_mof_codes : List String)
    (code : String) : Option Suggestion :=
  if code ∈ existing_mof_codes ∧ (keywordCache code).isSome ∧
      0 < scoreOf text code then
    some ⟨code, scoreOf text code⟩
  else none

/-- `get_suggestions_fast`. -/
def get_suggestions_fast (account : Account)
    (existing_mof_codes : List String) : List Suggestion :=
  if normalize_text account.account_name = [] then []
  else
    (sortDesc ((compatibleCodes account.root_type).filterMap
      (suggestionFor (normalize_text account.account_name) existing_mof_codes))).take 5

/-- `calculate_keyword_score` (legacy): iterate the raw keyword list, test
`keyword.lower() in text.lower()`, add `len(keyword.split())`. -/
def calculate_keyword_score (text : String) : List String → Nat
  | [] => 0
  | kw :: rest =>
    (if occursIn (lowerStr kw) (lowerStr text) then wordCount kw.toList else 0) +
      calculate_keyword_score text rest

/-- The candidate codes strategy 3 actually scores: the compatible codes
that survive the `in existing` and cache-presence guards, in order. -/
def eligible (existing codes : List String) : List String :=
  codes.filter (fun c => decide (c ∈ existing) && (keywordCache c).isSome)

/-- The eligible strategy-3 candidates of an account. -/
def keywordCandidates (account : Account) (existing : List String) : List String :=
  eligible existing (compatibleCodes account.root_type)

/-- Abstract form of the strategy-3 loop: fold `(best, bestScore)` over a
candidate list, updating on strict improvement. -/
def maxFold (f : String → Nat) : List String → Option String × Nat → Option String × Nat
  | [], st => st
  | c :: cs, st => maxFold f cs (if st.2 < f c then (some c, f c) else st)

/-- Strategies 1 and 2 both miss: the account number gives neither an exact
nor a 4-character-prefix hit in `existing` (so control reaches strategy 3). -/
def numberMissed (account : Account) (existing : List String) : Prop :=
  ¬(account.account_number ≠ "" ∧ account.account_number ∈ existing) ∧
  ¬(account.account_number ≠ "" ∧ 4 ≤ account.account_number.toList.length ∧
      String.mk (account.account_number.toList.take 4) ∈ existing)

/-- The five recognised root types (the keys of `ROOT_TYPE_RANGES`). -/
def rootTypeNames : List String := ROOT_TYPE_RANGES.map Prod.fst

/-- A keyword is nonempty and neither starts nor ends with whitespace
(every catalog keyword satisfies this, checked below). -/
def keywordEndsOk (k : List Char) : Bool :=
  match k.head?, k.getLast? with
  | some a, some b => !isWs a && !isWs b
  | _, _ => false

/-- Closed sanity facts about the catalog used by the proofs: per code, the
lowercased keywords are pairwise distinct, each is whitespace-trimmed, and
lowercasing preserves its word count. -/
def catalogKeywordsOk : Bool :=
  ACCOUNT_KEYWORDS.all (fun p =>
    decide ((p.2.map lowerStr).Nodup) &&
    p.2.all (fun kw => keywordEndsOk (lowerStr kw) &&
      (wordCount (lowerStr kw) == wordCount kw.toList)))

/-! ### Substring machinery -/

theorem startsWith_iff (n h : List Char) :
    startsWith n h = true ↔ ∃ t, h = n ++ t := by
  induction n generalizing h with
  | nil => simp [startsWith]
  | cons a as ih =>
    cases h with
    | nil =>
      simp [startsWith]
    | cons b bs =>
      rw [startsWith, Bool.and_eq_true, beq_iff_eq, ih]
      constructor
      · rintro ⟨rfl, t, rfl⟩
        exact ⟨t, rfl⟩
      · rintro ⟨t, ht⟩
        rw [List.cons_append] at ht
        injection ht with h1 h2
        exact ⟨h1.symm, t, h2⟩

theorem occursIn_iff (n h : List Char) :
    occursIn n h = true ↔ ∃ a b, h = a ++ n ++ b := by
  induction h with
  | nil =>
    rw [occursIn, startsWith_iff]
    constructor
    · rintro ⟨t, ht⟩
      exact ⟨[], t, ht⟩
    · rintro ⟨a, b, hab⟩
      have ha : a = [] := by
        cases a with
        | nil => rfl
        | cons x xs => simp at hab
      subst ha
      exact ⟨b, hab⟩
  | cons c cs ih =>
    rw [occursIn, Bool.or_eq_true, startsWith_iff, ih]
    constructor
    · rintro (⟨t, ht⟩ | ⟨a, b, hab⟩)
      · exact ⟨[], t, ht⟩
      · exact ⟨c :: a, b, by simp [hab]⟩
    · rintro ⟨a, b, hab⟩
      cases a with
      | nil =>
        exact Or.inl ⟨b, by simpa using hab⟩
      | cons a0 as =>
        rw [List.cons_append, List.cons_append] at hab
        injection hab with h1 h2
        exact Or.inr ⟨as, b, by simpa using h2⟩

theorem occursIn_reverse_of (n h : List Char) (hx : occursIn n h = true) :
    occursIn n.reverse h.reverse = true := by
  rw [occursIn_iff] at hx ⊢
  obtain ⟨a, b, rfl⟩ := hx
  exact ⟨b.reverse, a.reverse, by simp⟩

theorem occursIn_of_inner (n m a b : List Char) (hx : occursIn n m = true) :
    occursIn n (a ++ m ++ b) = true := by
  rw [occursIn_iff] at hx ⊢
  obtain ⟨x, y, rfl⟩ := hx
  exact ⟨a ++ x, y ++ b, by simp⟩

theorem occursIn_dropWhile (n l : List Char) (c0 : Char)
    (hh : n.head? = some c0) (hc : isWs c0 = false)
    (hx : occursIn n l = true) :
    occursIn n (l.dropWhile isWs) = true := by
  induction l with
  | nil => simpa using hx
  | cons b bs ih =>
    rw [List.dropWhile_cons]
    by_cases hb : isWs b
    · rw [if_pos hb]
      apply ih
      rw [occursIn, Bool.or_eq_true] at hx
      rcases hx with hx | hx
      · exfalso
        cases n with
        | nil => simp at hh
        | cons a as =>
          injection hh with ha
          subst ha
          rw [startsWith, Bool.and_eq_true, beq_iff_eq] at hx
          rw [hx.1] at hc
          rw [hb] at hc
          simp at hc
      · exact hx
    · rw [if_neg hb]
      exact hx

theorem keywordEndsOk_head (n : List Char) (hok : keywordEndsOk n = true) :
    ∃ c0, n.head? = some c0 ∧ isWs c0 = false := by
  unfold keywordEndsOk at hok
  cases hh : n.head? with
  | none => rw [hh] at hok; simp at hok
  | some a =>
    cases hl : n.getLast? with
    | none => rw [hh, hl] at hok; simp at hok
    | some b =>
      rw [hh, hl] at hok
      simp only [Bool.and_eq_true, Bool.not_eq_true'] at hok
      exact ⟨a, rfl, hok.1⟩

theorem keywordEndsOk_last (n : List Char) (hok : keywordEndsOk n = true) :
    ∃ c1, n.getLast? = some c1 ∧ isWs c1 = false := by
  unfold keywordEndsOk at hok
  cases hh : n.head? with
  | none => rw [hh] at hok; simp at hok
  | some a =>
    cases hl : n.getLast? with
    | none => rw [hh, hl] at hok; simp at hok
    | some b =>
      rw [hh, hl] at hok
      simp only [Bool.and_eq_true, Bool.not_eq_true'] at hok
      exact ⟨b, rfl, hok.2⟩

theorem occursIn_pyStrip_of (n l : List Char) (hok : keywordEndsOk n = true)
    (hx : occursIn n l = true) : occursIn n (pyStrip l) = true := by
  obtain ⟨c0, hh, hc⟩ := keywordEndsOk_head n hok
  obtain ⟨c1, hl, hc1⟩ := keywordEndsOk_last n hok
  have h1 : occursIn n (l.dropWhile isWs) = true :=
    occursIn_dropWhile n l c0 hh hc hx
  have h2 : occursIn n.reverse (l.dropWhile isWs).reverse = true :=
    occursIn_reverse_of _ _ h1
  have hh2 : n.reverse.head? = some c1 := by
    rw [List.head?_reverse]; exact hl
  have h3 : occursIn n.reverse ((l.dropWhile isWs).reverse.dropWhile isWs) = true :=
    occursIn_dropWhile _ _ c1 hh2 hc1 h2
  have h4 := occursIn_reverse_of _ _ h3
  rw [List.reverse_reverse] at h4
  exact h4

theorem pyStrip_decomp (l : List Char) : ∃ a b, l = a ++ pyStrip l ++ b := by
  refine ⟨l.takeWhile isWs,
    ((l.dropWhile isWs).reverse.takeWhile isWs).reverse, ?_⟩
  unfold pyStrip
  rw [List.append_assoc, ← List.reverse_append,
    List.takeWhile_append_dropWhile, List.reverse_reverse,
    List.takeWhile_append_dropWhile]

theorem occursIn_of_pyStrip (n l : List Char)
    (hx : occursIn n (pyStrip l) = true) : occursIn n l = true := by
  obtain ⟨a, b, hab⟩ := pyStrip_decomp l
  rw [hab]
  exact occursIn_of_inner n (pyStrip l) a b hx

theorem occursIn_pyStrip_eq (n l : List Char) (hok : keywordEndsOk n = true) :
    occursIn n (pyStrip l) = occursIn n l := by
  by_cases hx : occursIn n l = true
  · rw [hx, occursIn_pyStrip_of n l hok hx]
  · rw [Bool.not_eq_true] at hx
    have hps : occursIn n (pyStrip l) = false := by
      cases hps : occursIn n (pyStrip l) with
      | false => rfl
      | true => exact absurd (occursIn_of_pyStrip n l hps) (by rw [hx]; simp)
    rw [hps, hx]

/-! ### Score lemmas -/

theorem score_eq_sum (text : List Char) (ks : List (List Char)) (mw : Nat) :
    calculate_keyword_score_fast text ks mw =
      ((ks.filter (fun k => occursIn k text)).map wordCount).sum := by
  induction ks with
  | nil => rfl
  | cons k rest ih =>
    cases h : occursIn k text <;>
      simp [calculate_keyword_score_fast, List.filter_cons, h, ih]

theorem le_score_of_mem (text : List Char) (ks : List (List Char)) (mw : Nat)
    (k : List Char) (hk : k ∈ ks) (ho : occursIn k text = true) :
    wordCount k ≤ calculate_keyword_score_fast text ks mw := by
  induction ks with
  | nil => cases hk
  | cons k0 rest ih =>
    rw [calculate_keyword_score_fast]
    rcases List.mem_cons.1 hk with rfl | hk2
    · rw [ho]
      simp only [if_pos rfl]
      exact Nat.le_add_right (wordCount k) _
    · exact le_trans (ih hk2) (Nat.le_add_left _ _)

/-! ### The strategy-3 fold -/

theorem maxFold_snd_le (f : String → Nat) (l : List String) :
    ∀ st, st.2 ≤ (maxFold f l st).2 := by
  induction l with
  | nil => intro st; exact le_refl _
  | cons c cs ih =>
    intro st
    rw [maxFold]
    by_cases h : st.2 < f c
    · rw [if_pos h]
      exact le_trans (le_of_lt h) (ih (some c, f c))
    · rw [if_neg h]
      exact ih st

theorem le_maxFold_snd (f : String → Nat) (l : List String) :
    ∀ st c, c ∈ l → f c ≤ (maxFold f l st).2 := by
  induction l with
  | nil => intro _ _ hc; cases hc
  | cons c0 cs ih =>
    intro st c hc
    rw [maxFold]
    rcases List.mem_cons.1 hc with rfl | h2
    · by_cases h : st.2 < f c
      · rw [if_pos h]
        exact maxFold_snd_le f cs (some c, f c)
      · rw [if_neg h]
        exact le_trans (Nat.le_of_not_lt h) (maxFold_snd_le f cs st)
    · by_cases h : st.2 < f c0
      · rw [if_pos h]; exact ih _ c h2
      · rw [if_neg h]; exact ih _ c h2

theorem maxFold_fst_some (f : String → Nat) (l : List String) :
    ∀ st x, st.1 = some x → ∃ y, (maxFold f l st).1 = some y := by
  induction l with
  | nil => intro st x h; exact ⟨x, h⟩
  | cons c cs ih =>
    intro st x h
    rw [maxFold]
    by_cases hlt : st.2 < f c
    · rw [if_pos hlt]; exact ih _ c rfl
    · rw [if_neg hlt]; exact ih _ x h

theorem maxFold_fst_none (f : String → Nat) (l : List String) :
    ∀ st, (maxFold f l st).1 = none → maxFold f l st = st := by
  induction l with
  | nil => intro st _; rfl
  | cons c cs ih =>
    intro st h
    rw [maxFold] at h ⊢
    by_cases hlt : st.2 < f c
    · rw [if_pos hlt] at h ⊢
      obtain ⟨y, hy⟩ := maxFold_fst_some f cs (some c, f c) c rfl
      rw [h] at hy
      cases hy
    · rw [if_neg hlt] at h ⊢
      exact ih st h

theorem maxFold_eq_some (f : String → Nat) (l : List String) :
    ∀ st c m, maxFold f l st = (some c, m) →
      st = (some c, m) ∨
      (f c = m ∧ st.2 < m ∧ ∃ l1 l2, l = l1 ++ c :: l2 ∧ ∀ d ∈ l1, f d < m) := by
  induction l with
  | nil => intro st c m h; exact Or.inl h
  | cons c0 cs ih =>
    intro st c m h
    rw [maxFold] at h
    by_cases hlt : st.2 < f c0
    · rw [if_pos hlt] at h
      rcases ih _ c m h with h1 | ⟨hf, hlt2, l1, l2, hsplit, hall⟩
      · injection h1 with ha hb
        injection ha with ha
        subst ha
        right
        exact ⟨hb, by rw [← hb]; exact hlt, [], cs, rfl, by intro d hd; cases hd⟩
      · right
        refine ⟨hf, lt_trans hlt hlt2, c0 :: l1, l2, by rw [hsplit, List.cons_append], ?_⟩
        intro d hd
        rcases List.mem_cons.1 hd with rfl | hd2
        · exact hlt2
        · exact hall d hd2
    · rw [if_neg hlt] at h
      rcases ih _ c m h with h1 | ⟨hf, hlt2, l1, l2, hsplit, hall⟩
      · exact Or.inl h1
      · right
        refine ⟨hf, hlt2, c0 :: l1, l2, by rw [hsplit, List.cons_append], ?_⟩
        intro d hd
        rcases List.mem_cons.1 hd with rfl | hd2
        · exact lt_of_le_of_lt (Nat.le_of_not_lt hlt) hlt2
        · exact hall d hd2

theorem keywordLoop_eq_maxFold (text : List Char) (existing : List String) :
    ∀ codes st, keywordLoop text existing codes st =
      maxFold (scoreOf text) (eligible existing codes) st := by
  intro codes
  induction codes with
  | nil => intro st; rfl
  | cons c cs ih =>
    intro st
    rw [keywordLoop]
    by_cases hmem : c ∈ existing
    · cases hcache : keywordCache c with
      | none =>
        rw [if_pos hmem]
        have helig : eligible existing (c :: cs) = eligible existing cs := by
          simp [eligible, List.filter_cons, hcache]
        rw [helig]
        exact ih st
      | some kd =>
        obtain ⟨ks, mw⟩ := kd
        rw [if_pos hmem]
        have helig : eligible existing (c :: cs) = c :: eligible existing cs := by
          simp [eligible, List.filter_cons, hcache, hmem]
        rw [helig, maxFold]
        have hs : scoreOf text c = calculate_keyword_score_fast text ks mw := by
          rw [scoreOf, hcache]
        rw [hs]
        exact ih _
    · rw [if_neg hmem]
      have helig : eligible existing (c :: cs) = eligible existing cs := by
        simp [eligible, List.filter_cons, hmem]
      rw [helig]
      exact ih st

/-! ### Sorting lemmas -/

theorem mem_insertDesc (s a : Suggestion) (l : List Suggestion) :
    a ∈ insertDesc s l ↔ a = s ∨ a ∈ l := by
  induction l with
  | nil => simp [insertDesc]
  | cons t ts ih =>
    rw [insertDesc]
    by_cases h : s.score ≤ t.score
    · rw [if_pos h, List.mem_cons, ih, List.mem_cons]
      tauto
    · rw [if_neg h, List.mem_cons]

theorem mem_sortDesc_aux (l : List Suggestion) :
    ∀ acc a, (a ∈ l.foldl (fun acc s => insertDesc s acc) acc) ↔ a ∈ acc ∨ a ∈ l := by
  induction l with
  | nil => intro acc a; simp
  | cons s ss ih =>
    intro acc a
    rw [List.foldl_cons, ih, mem_insertDesc, List.mem_cons]
    tauto

theorem mem_sortDesc (l : List Suggestion) (a : Suggestion) :
    a ∈ sortDesc l ↔ a ∈ l := by
  rw [sortDesc, mem_sortDesc_aux]
  simp

theorem pairwise_insertDesc (s : Suggestion) (l : List Suggestion)
    (h : l.Pairwise (fun a b => b.score ≤ a.score)) :
    (insertDesc s l).Pairwise (fun a b => b.score ≤ a.score) := by
  induction l with
  | nil => simp [insertDesc]
  | cons t ts ih =>
    rw [insertDesc]
    rw [List.pairwise_cons] at h
    by_cases hle : s.score ≤ t.score
    · rw [if_pos hle, List.pairwise_cons]
      constructor
      · intro x hx
        rcases (mem_insertDesc s x ts).1 hx with rfl | hx2
        · exact hle
        · exact h.1 x hx2
      · exact ih h.2
    · rw [if_neg hle, List.pairwise_cons]
      constructor
      · intro x hx
        rcases List.mem_cons.1 hx with rfl | hx2
        · exact le_of_lt (Nat.lt_of_not_le hle)
        · exact le_trans (h.1 x hx2) (le_of_lt (Nat.lt_of_not_le hle))
      · rw [List.pairwise_cons]
        exact ⟨h.1, h.2⟩

theorem pairwise_sortDesc_aux (l : List Suggestion) :
    ∀ acc, acc.Pairwise (fun a b => b.score ≤ a.score) →
      (l.foldl (fun acc s => insertDesc s acc) acc).Pairwise
        (fun a b => b.score ≤ a.score) := by
  induction l with
  | nil => intro acc h; exact h
  | cons s ss ih =>
    intro acc h
    rw [List.foldl_cons]
    exact ih _ (pairwise_insertDesc s acc h)

theorem pairwise_sortDesc (l : List Suggestion) :
    (sortDesc l).Pairwise (fun a b => b.score ≤ a.score) :=
  pairwise_sortDesc_aux l [] List.Pairwise.nil

/-! ### Suggestion entries -/

theorem suggestionFor_some (text : List Char) (existing : List String)
    (code : String) (s : Suggestion)
    (h : suggestionFor text existing code = some s) :
    s.mof_code = code ∧ code ∈ existing ∧ 0 < s.score ∧
      s.score = scoreOf text code := by
  unfold suggestionFor at h
  by_cases hc : code ∈ existing ∧ (keywordCache code).isSome ∧ 0 < scoreOf text code
  · rw [if_pos hc] at h
    injection h with h
    subst h
    exact ⟨rfl, hc.1, hc.2.2, rfl⟩
  · rw [if_neg hc] at h; cases h

theorem suggestionFor_none_of_zero (text : List Char) (existing : List String)
    (code : String) (h0 : scoreOf text code = 0) :
    suggestionFor text existing code = none := by
  unfold suggestionFor
  rw [if_neg]
  intro hc
  rw [h0] at hc
  exact lt_irrefl 0 hc.2.2

theorem mem_suggestions (account : Account) (existing : List String)
    (s : Suggestion) (hs : s ∈ get_suggestions_fast account existing) :
    s.mof_code ∈ compatibleCodes account.root_type ∧ s.mof_code ∈ existing ∧
      0 < s.score ∧
      s.score = scoreOf (normalize_text account.account_name) s.mof_code := by
  unfold get_suggestions_fast at hs
  by_cases hne : normalize_text account.account_name = []
  · rw [if_pos hne] at hs; cases hs
  · rw [if_neg hne] at hs
    have h2 := (mem_sortDesc _ _).1 (List.take_subset _ _ hs)
    obtain ⟨code, hcode, hsome⟩ := List.mem_filterMap.1 h2
    obtain ⟨heq, hmem, hpos, hscore⟩ := suggestionFor_some _ _ _ _ hsome
    rw [heq]
    exact ⟨hcode, hmem, hpos, hscore⟩

/-! ### Catalog sanity facts -/

theorem catalogKeywordsOk_eq : catalogKeywordsOk = true := by decide

theorem catalog_fact (code : String) (kws : List String)
    (h : lookupKeywords code = some kws) :
    (kws.map lowerStr).Nodup ∧
      ∀ kw ∈ kws, keywordEndsOk (lowerStr kw) = true ∧
        wordCount (lowerStr kw) = wordCount kw.toList := by
  have hall := catalogKeywordsOk_eq
  rw [catalogKeywordsOk, List.all_eq_true] at hall
  unfold lookupKeywords at h
  cases hf : ACCOUNT_KEYWORDS.find? (fun p => p.1 == code) with
  | none => rw [hf] at h; cases h
  | some p =>
    rw [hf] at h
    injection h with h
    have hp := List.mem_of_find?_eq_some hf
    have hok := hall p hp
    rw [Bool.and_eq_true] at hok
    subst h
    constructor
    · exact of_decide_eq_true hok.1
    · intro kw hkw
      have h2 := (List.all_eq_true.1 hok.2) kw hkw
      rw [Bool.and_eq_true, beq_iff_eq] at h2
      exact ⟨h2.1, h2.2⟩

/-! ### The classifier, branch by branch -/

theorem find_keyword_branch (account : Account) (existing : List String)
    (hnum : numberMissed account existing) :
    find_best_mof_match_fast account existing =
      (if normalize_text account.account_name = [] then none
       else if 2 ≤ (maxFold (scoreOf (normalize_text account.account_name))
           (keywordCandidates account existing) (none, 0)).2 then
         (maxFold (scoreOf (normalize_text account.account_name))
           (keywordCandidates account existing) (none, 0)).1
       else none) := by
  unfold find_best_mof_match_fast
  rw [if_neg hnum.1, if_neg hnum.2, keywordLoop_eq_maxFold]
  rfl

theorem mem_of_candidate (account : Account) (existing : List String)
    (c : String) (h : c ∈ keywordCandidates account existing) :
    c ∈ existing ∧ c ∈ compatibleCodes account.root_type := by
  rw [keywordCandidates, eligible, List.mem_filter] at h
  rw [Bool.and_eq_true] at h
  exact ⟨of_decide_eq_true h.2.1, h.1⟩

theorem candidate_of_mem (account : Account) (existing : List String)
    (c : String) (h1 : c ∈ compatibleCodes account.root_type)
    (h2 : c ∈ existing) (h3 : (keywordCache c).isSome = true) :
    c ∈ keywordCandidates account existing := by
  rw [keywordCandidates, eligible, List.mem_filter]
  exact ⟨h1, by rw [Bool.and_eq_true]; exact ⟨decide_eq_true h2, h3⟩⟩

theorem find_some_keyword (account : Account) (existing : List String)
    (c : String) (hnum : numberMissed account existing)
    (h : find_best_mof_match_fast account existing = some c) :
    c ∈ keywordCandidates account existing ∧
      2 ≤ scoreOf (normalize_text account.account_name) c ∧
      (∀ d ∈ keywordCandidates account existing,
        scoreOf (normalize_text account.account_name) d ≤
          scoreOf (normalize_text account.account_name) c) ∧
      ∃ l1 l2, keywordCandidates account existing = l1 ++ c :: l2 ∧
        ∀ d ∈ l1, scoreOf (normalize_text account.account_name) d <
          scoreOf (normalize_text account.account_name) c := by
  rw [find_keyword_branch account existing hnum] at h
  by_cases hne : normalize_text account.account_name = []
  · rw [if_pos hne] at h; cases h
  · rw [if_neg hne] at h
    by_cases h2 : 2 ≤ (maxFold (scoreOf (normalize_text account.account_name))
        (keywordCandidates account existing) (none, 0)).2
    · rw [if_pos h2] at h
      have hst : maxFold (scoreOf (normalize_text account.account_name))
          (keywordCandidates account existing) (none, 0) =
          (some c, (maxFold (scoreOf (normalize_text account.account_name))
            (keywordCandidates account existing) (none, 0)).2) := by
        rw [← h]
      rcases maxFold_eq_some _ _ _ _ _ hst with hinit | ⟨hf, _, l1, l2, hsplit, hall⟩
      · exact Option.noConfusion (congrArg Prod.fst hinit)
      · have hcmem : c ∈ keywordCandidates account existing := by
          rw [hsplit]
          exact List.mem_append_right l1 (List.mem_cons_self c l2)
        refine ⟨hcmem, ?_, ?_, l1, l2, hsplit, ?_⟩
        · rw [hf]; exact h2
        · intro d hd
          rw [hf]
          exact le_maxFold_snd _ _ _ d hd
        · intro d hd
          rw [hf]
          exact hall d hd
    · rw [if_neg h2] at h; cases h

theorem find_none_keyword (account : Account) (existing : List String)
    (hnum : numberMissed account existing)
    (hne : normalize_text account.account_name ≠ [])
    (h : find_best_mof_match_fast account existing = none) :
    ∀ d ∈ keywordCandidates account existing,
      scoreOf (normalize_text account.account_name) d < 2 := by
  rw [find_keyword_branch account existing hnum, if_neg hne] at h
  by_cases h2 : 2 ≤ (maxFold (scoreOf (normalize_text account.account_name))
      (keywordCandidates account existing) (none, 0)).2
  · rw [if_pos h2] at h
    have h0 := maxFold_fst_none _ _ _ h
    rw [h0] at h2
    exact absurd h2 (by simp)
  · intro d hd
    exact lt_of_le_of_lt (le_maxFold_snd _ _ _ d hd) (Nat.lt_of_not_le h2)

theorem find_best_cases (account : Account) (existing : List String)
    (c : String) (h : find_best_mof_match_fast account existing = some c) :
    (account.account_number ≠ "" ∧ c = account.account_number ∧ c ∈ existing) ∨
    (account.account_number ≠ "" ∧
      c = String.mk (account.account_number.toList.take 4) ∧ c ∈ existing) ∨
    (numberMissed account existing ∧ c ∈ keywordCandidates account existing) := by
  by_cases h1 : account.account_number ≠ "" ∧ account.account_number ∈ existing
  · left
    unfold find_best_mof_match_fast at h
    rw [if_pos h1] at h
    injection h with h
    subst h
    exact ⟨h1.1, rfl, h1.2⟩
  · by_cases h2 : account.account_number ≠ "" ∧
        4 ≤ account.account_number.toList.length ∧
        String.mk (account.account_number.toList.take 4) ∈ existing
    · right; left
      unfold find_best_mof_match_fast at h
      rw [if_neg h1, if_pos h2] at h
      injection h with h
      subst h
      exact ⟨h2.1, rfl, h2.2.2⟩
    · right; right
      exact ⟨⟨h1, h2⟩, (find_some_keyword account existing c ⟨h1, h2⟩ h).1⟩

/-! ### Membership-extensional congruence (the frozenset is used only
through membership) -/

theorem keywordLoop_congr (text : List Char) (e1 e2 : List String)
    (h : ∀ c : String, c ∈ e1 ↔ c ∈ e2) :
    ∀ codes st, keywordLoop text e1 codes st = keywordLoop text e2 codes st := by
  intro codes
  induction codes with
  | nil => intro st; rfl
  | cons c cs ih =>
    intro st
    rw [keywordLoop, keywordLoop]
    by_cases hc : c ∈ e1
    · rw [if_pos hc, if_pos ((h c).1 hc)]
      exact ih _
    · rw [if_neg hc, if_neg (fun hx => hc ((h c).2 hx))]
      exact ih _

theorem suggestionFor_congr (text : List Char) (e1 e2 : List String)
    (code : String) (h : ∀ c : String, c ∈ e1 ↔ c ∈ e2) :
    suggestionFor text e1 code = suggestionFor text e2 code := by
  unfold suggestionFor
  by_cases hc : code ∈ e1 ∧ (keywordCache code).isSome ∧ 0 < scoreOf text code
  · rw [if_pos hc, if_pos ⟨(h code).1 hc.1, hc.2⟩]
  · rw [if_neg hc, if_neg (fun hx => hc ⟨(h code).2 hx.1, hx.2⟩)]

/-! ### Legacy/fast scorer agreement -/

theorem legacy_fast_aux (text : String) (kws : List String) (mw : Nat)
    (hfacts : ∀ kw ∈ kws, keywordEndsOk (lowerStr kw) = true ∧
      wordCount (lowerStr kw) = wordCount kw.toList) :
    calculate_keyword_score text kws =
      calculate_keyword_score_fast (normalize_text text) (kws.map lowerStr) mw := by
  induction kws with
  | nil => rfl
  | cons kw rest ih =>
    rw [calculate_keyword_score, List.map_cons, calculate_keyword_score_fast]
    have h1 := hfacts kw (List.mem_cons_self ..)
    have hocc : occursIn (lowerStr kw) (normalize_text text) =
        occursIn (lowerStr kw) (lowerStr text) := by
      rw [normalize_text]
      exact occursIn_pyStrip_eq _ _ h1.1
    rw [hocc, h1.2, ih (fun k hk => hfacts k (List.mem_cons_of_mem _ hk))]

theorem compatibleCodes_of_valid (rt : String) (h : rt ∈ rootTypeNames) :
    compatibleCodes rt = catalogCodes.filter (codeMatchesRoot rt) := by
  have h5 : rt = "Asset" ∨ rt = "Liability" ∨ rt = "Equity" ∨
      rt = "Income" ∨ rt = "Expense" := by
    simpa [rootTypeNames, ROOT_TYPE_RANGES] using h
  rcases h5 with rfl | rfl | rfl | rfl | rfl <;> rfl

/-! ### The claims -/

/-- Claim C1, counterexample: with root type `Asset` supplied, an exact
account-number hit on catalog code `2110` (a Liability-range code) is
returned, so the category filter is not respected by
`find_best_mof_match_fast` as a whole. -/
theorem C1_counterexample :
    find_best_mof_match_fast ⟨"2110", "Trade Payable", "Asset"⟩ ["2110"] =
      some "2110" ∧
    ("Asset" : String) ∈ rootTypeNames ∧
    codeMatchesRoot "Asset" "2110" = false := by
  refine ⟨rfl, by decide, rfl⟩

/-- Claim C1 (amended): when a recognised root type is supplied and the
account number yields neither an exact nor a 4-character-prefix catalog
match, every code `find_best_mof_match_fast` returns and every code
`get_suggestions_fast` suggests lies inside the root type's prefix range. -/
theorem C1_category_filter (account : Account) (existing : List String)
    (hrt : account.root_type ∈ rootTypeNames)
    (hnum : numberMissed account existing) :
    (∀ c, find_best_mof_match_fast account existing = some c →
      codeMatchesRoot account.root_type c = true) ∧
    (∀ s ∈ get_suggestions_fast account existing,
      codeMatchesRoot account.root_type s.mof_code = true) := by
  have hcompat : ∀ c ∈ compatibleCodes account.root_type,
      codeMatchesRoot account.root_type c = true := by
    intro c hc
    rw [compatibleCodes_of_valid _ hrt] at hc
    exact (List.mem_filter.1 hc).2
  constructor
  · intro c hc
    have h3 := (find_some_keyword account existing c hnum hc).1
    exact hcompat c (mem_of_candidate account existing c h3).2
  · intro s hs
    exact hcompat _ (mem_suggestions account existing s hs).1

/-- Witness for C1 at a concrete account and catalog. -/
theorem C1_witness :
    (∀ c, find_best_mof_match_fast ⟨"", "bank", "Asset"⟩ ["1112", "2110"] =
        some c → codeMatchesRoot "Asset" c = true) ∧
    (∀ s ∈ get_suggestions_fast ⟨"", "bank", "Asset"⟩ ["1112", "2110"],
      codeMatchesRoot "Asset" s.mof_code = true) :=
  C1_category_filter ⟨"", "bank", "Asset"⟩ ["1112", "2110"]
    (by decide) ⟨by decide, by decide⟩

/-- Claim C2 (confirmed): in the keyword stage (account number missed, text
nonempty) the returned code is an eligible candidate with score ≥ 2 that is
maximal among all candidate scores and strictly beats every
earlier-encountered candidate; when `None` is returned every candidate
scores below 2. -/
theorem C2_keyword_best (account : Account) (existing : List String)
    (hnum : numberMissed account existing)
    (hne : normalize_text account.account_name ≠ []) :
    (∀ c, find_best_mof_match_fast account existing = some c →
      c ∈ keywordCandidates account existing ∧
      2 ≤ scoreOf (normalize_text account.account_name) c ∧
      (∀ d ∈ keywordCandidates account existing,
        scoreOf (normalize_text account.account_name) d ≤
          scoreOf (normalize_text account.account_name) c) ∧
      ∃ l1 l2, keywordCandidates account existing = l1 ++ c :: l2 ∧
        ∀ d ∈ l1, scoreOf (normalize_text account.account_name) d <
          scoreOf (normalize_text account.account_name) c) ∧
    (find_best_mof_match_fast account existing = none →
      ∀ d ∈ keywordCandidates account existing,
        scoreOf (normalize_text account.account_name) d < 2) :=
  ⟨fun c hc => find_some_keyword account existing c hnum hc,
   fun h => find_none_keyword account existing hnum hne h⟩

/-- Witness for C2 at a concrete account and catalog. -/
theorem C2_witness :
    (∀ c, find_best_mof_match_fast ⟨"", "Petty Cash", "Asset"⟩ ["1111"] =
        some c →
      c ∈ keywordCandidates ⟨"", "Petty Cash", "Asset"⟩ ["1111"] ∧
      2 ≤ scoreOf (normalize_text "Petty Cash") c ∧
      (∀ d ∈ keywordCandidates ⟨"", "Petty Cash", "Asset"⟩ ["1111"],
        scoreOf (normalize_text "Petty Cash") d ≤
          scoreOf (normalize_text "Petty Cash") c) ∧
      ∃ l1 l2, keywordCandidates ⟨"", "Petty Cash", "Asset"⟩ ["1111"] =
          l1 ++ c :: l2 ∧
        ∀ d ∈ l1, scoreOf (normalize_text "Petty Cash") d <
          scoreOf (normalize_text "Petty Cash") c) ∧
    (find_best_mof_match_fast ⟨"", "Petty Cash", "Asset"⟩ ["1111"] = none →
      ∀ d ∈ keywordCandidates ⟨"", "Petty Cash", "Asset"⟩ ["1111"],
        scoreOf (normalize_text "Petty Cash") d < 2) :=
  C2_keyword_best ⟨"", "Petty Cash", "Asset"⟩ ["1111"] ⟨by decide, by decide⟩
    (by decide)

/-- Claim C3 (confirmed): the score of a catalog code equals the sum of the
word counts of its distinct lowercased keyword phrases that occur as
substrings of the normalized (lowercased, stripped) input text. -/
theorem C3_score_sum (text : String) (code : String) (kws : List String)
    (h : lookupKeywords code = some kws) :
    scoreOf (normalize_text text) code =
      (((lowerSet kws).filter
        (fun k => occursIn k (normalize_text text))).map wordCount).sum := by
  have hk : keywordCache code = some (lowerSet kws, maxWords kws) := by
    rw [keywordCache, h]; rfl
  have hs : scoreOf (normalize_text text) code =
      calculate_keyword_score_fast (normalize_text text) (lowerSet kws)
        (maxWords kws) := by
    rw [scoreOf, hk]
  rw [hs, score_eq_sum]

/-- Witness for C3 at a concrete text and code. -/
theorem C3_witness :
    scoreOf (normalize_text "Petty Cash on Hand") "1111" =
      (((lowerSet ["cash on hand", "petty cash", "касс", "бэлэн мөнгө",
          "кассан дахь"]).filter
        (fun k => occursIn k (normalize_text "Petty Cash on Hand"))).map
          wordCount).sum :=
  C3_score_sum "Petty Cash on Hand" "1111"
    ["cash on hand", "petty cash", "касс", "бэлэн мөнгө", "кассан дахь"] rfl

/-- Claim C4, counterexample: an account with empty name but an exact
account-number hit still matches, so "empty name text → no match" fails for
`find_best_mof_match_fast` as stated. -/
theorem C4_counterexample :
    normalize_text "" = [] ∧
    find_best_mof_match_fast ⟨"1111", "", "Asset"⟩ ["1111"] = some "1111" := by
  exact ⟨rfl, rfl⟩

/-- Claim C4 (amended): when the normalized name is empty,
`get_suggestions_fast` returns no suggestions, and
`find_best_mof_match_fast` returns `None` provided the account number
yields neither an exact nor a prefix catalog match. -/
theorem C4_empty_no_match (account : Account) (existing : List String)
    (hname : normalize_text account.account_name = [])
    (hnum : numberMissed account existing) :
    find_best_mof_match_fast account existing = none ∧
    get_suggestions_fast account existing = [] := by
  constructor
  · rw [find_keyword_branch account existing hnum, if_pos hname]
  · unfold get_suggestions_fast
    rw [if_pos hname]

/-- Witness for C4 at a whitespace-only account name. -/
theorem C4_witness :
    find_best_mof_match_fast ⟨"", "   ", "Asset"⟩ ["1111"] = none ∧
    get_suggestions_fast ⟨"", "   ", "Asset"⟩ ["1111"] = [] :=
  C4_empty_no_match ⟨"", "   ", "Asset"⟩ ["1111"] (by decide)
    ⟨by decide, by decide⟩

/-- Claim C5 (confirmed): the suggestion list has at most 5 entries, every
entry has positive score, scores are non-increasing, and if every eligible
candidate scores zero the list is empty. -/
theorem C5_suggestions_shape (account : Account) (existing : List String) :
    (get_suggestions_fast account existing).length ≤ 5 ∧
    (∀ s ∈ get_suggestions_fast account existing, 0 < s.score) ∧
    (get_suggestions_fast account existing).Pairwise
      (fun a b => b.score ≤ a.score) ∧
    ((∀ code ∈ keywordCandidates account existing,
        scoreOf (normalize_text account.account_name) code = 0) →
      get_suggestions_fast account existing = []) := by
  refine ⟨?_, ?_, ?_, ?_⟩
  · unfold get_suggestions_fast
    by_cases hne : normalize_text account.account_name = []
    · rw [if_pos hne]; decide
    · rw [if_neg hne]
      exact le_trans (le_of_eq (List.length_take ..)) (min_le_left ..)
  · intro s hs
    exact (mem_suggestions account existing s hs).2.2.1
  · unfold get_suggestions_fast
    by_cases hne : normalize_text account.account_name = []
    · rw [if_pos hne]; exact List.Pairwise.nil
    · rw [if_neg hne]
      exact List.Pairwise.sublist (List.take_sublist ..) (pairwise_sortDesc _)
  · intro h0
    unfold get_suggestions_fast
    by_cases hne : normalize_text account.account_name = []
    · rw [if_pos hne]
    · rw [if_neg hne]
      have hfm : (compatibleCodes account.root_type).filterMap
          (suggestionFor (normalize_text account.account_name) existing) = [] := by
        rw [List.filterMap_eq_nil_iff]
        intro code hcode
        by_cases hc : code ∈ existing ∧ (keywordCache code).isSome
        · exact suggestionFor_none_of_zero _ _ _
            (h0 code (candidate_of_mem account existing code hcode hc.1 hc.2))
        · unfold suggestionFor
          rw [if_neg]
          intro hx
          exact hc ⟨hx.1, hx.2.1⟩
      rw [hfm]
      rfl

/-- Witness for C5 at a concrete account and catalog. -/
theorem C5_witness :
    (get_suggestions_fast ⟨"", "bank account cash", "Asset"⟩
      ["1111", "1112", "1113"]).length ≤ 5 ∧
    (∀ s ∈ get_suggestions_fast ⟨"", "bank account cash", "Asset"⟩
      ["1111", "1112", "1113"], 0 < s.score) ∧
    (get_suggestions_fast ⟨"", "bank account cash", "Asset"⟩
      ["1111", "1112", "1113"]).Pairwise (fun a b => b.score ≤ a.score) ∧
    ((∀ code ∈ keywordCandidates ⟨"", "bank account cash", "Asset"⟩
        ["1111", "1112", "1113"],
        scoreOf (normalize_text "bank account cash") code = 0) →
      get_suggestions_fast ⟨"", "bank account cash", "Asset"⟩
        ["1111", "1112", "1113"] = []) :=
  C5_suggestions_shape ⟨"", "bank account cash", "Asset"⟩
    ["1111", "1112", "1113"]

/-- Claim C6 (confirmed): a nonempty account number equal to a catalog code
is always matched to exactly that code by strategy 1. -/
theorem C6_exact_match (account : Account) (existing : List String)
    (h1 : account.account_number ≠ "")
    (h2 : account.account_number ∈ existing) :
    find_best_mof_match_fast account existing = some account.account_number := by
  unfold find_best_mof_match_fast
  rw [if_pos ⟨h1, h2⟩]

/-- Witness for C6 at a concrete account and catalog. -/
theorem C6_witness :
    find_best_mof_match_fast ⟨"1111", "whatever", "Expense"⟩ ["9999", "1111"] =
      some "1111" :=
  C6_exact_match ⟨"1111", "whatever", "Expense"⟩ ["9999", "1111"]
    (by decide) (by decide)

/-- Claim C7 (confirmed): if the lowercased input text contains a catalog
keyword phrase of a code verbatim, that code's keyword score is at least
the phrase's word count. -/
theorem C7_verbatim_phrase (text : String) (code : String) (kws : List String)
    (kw : String) (hcode : lookupKeywords code = some kws) (hkw : kw ∈ kws)
    (hocc : occursIn (lowerStr kw) (lowerStr text) = true) :
    wordCount kw.toList ≤ scoreOf (normalize_text text) code := by
  obtain ⟨-, hfacts⟩ := catalog_fact code kws hcode
  obtain ⟨hends, hwc⟩ := hfacts kw hkw
  have hk : keywordCache code = some (lowerSet kws, maxWords kws) := by
    rw [keywordCache, hcode]; rfl
  have hs : scoreOf (normalize_text text) code =
      calculate_keyword_score_fast (normalize_text text) (lowerSet kws)
        (maxWords kws) := by
    rw [scoreOf, hk]
  rw [hs, ← hwc]
  apply le_score_of_mem
  · rw [lowerSet]
    exact List.mem_dedup.2 (List.mem_map_of_mem lowerStr hkw)
  · rw [normalize_text]
    exact occursIn_pyStrip_of _ _ hends hocc

/-- Witness for C7 at a concrete text, code and phrase. -/
theorem C7_witness :
    wordCount ("cash on hand" : String).toList ≤
      scoreOf (normalize_text "  Cash On Hand (safe)") "1111" :=
  C7_verbatim_phrase "  Cash On Hand (safe)" "1111"
    ["cash on hand", "petty cash", "касс", "бэлэн мөнгө", "кассан дахь"]
    "cash on hand" rfl (by decide) (by decide)

/-- Claim C8 (confirmed): the classifier is deterministic; both entry
points are functions of the account fields and the membership of the
catalog set only, so two runs on identical input (even with the frozenset
represented differently) give identical outputs. -/
theorem C8_deterministic (account : Account) (e1 e2 : List String)
    (h : ∀ c : String, c ∈ e1 ↔ c ∈ e2) :
    find_best_mof_match_fast account e1 = find_best_mof_match_fast account e2 ∧
    get_suggestions_fast account e1 = get_suggestions_fast account e2 := by
  constructor
  · unfold find_best_mof_match_fast
    have e1eq : (account.account_number ∈ e1) = (account.account_number ∈ e2) :=
      propext (h _)
    have e2eq : (String.mk (account.account_number.toList.take 4) ∈ e1) =
        (String.mk (account.account_number.toList.take 4) ∈ e2) :=
      propext (h _)
    have e3eq := keywordLoop_congr (normalize_text account.account_name) e1 e2 h
      (compatibleCodes account.root_type) ((none : Option String), 0)
    simp only [e1eq, e2eq, e3eq]
  · unfold get_suggestions_fast
    rw [List.filterMap_congr
      (fun code _ => suggestionFor_congr (normalize_text account.account_name)
        e1 e2 code h)]

/-- Witness for C8: two list representations of the same catalog set. -/
theorem C8_witness :
    find_best_mof_match_fast ⟨"", "bank", "Asset"⟩ ["1112", "1111"] =
      find_best_mof_match_fast ⟨"", "bank", "Asset"⟩ ["1111", "1112", "1112"] ∧
    get_suggestions_fast ⟨"", "bank", "Asset"⟩ ["1112", "1111"] =
      get_suggestions_fast ⟨"", "bank", "Asset"⟩ ["1111", "1112", "1112"] :=
  C8_deterministic ⟨"", "bank", "Asset"⟩ ["1112", "1111"]
    ["1111", "1112", "1112"]
    (by intro c; simp [List.mem_cons]; tauto)

/-- Claim C9 (confirmed): the legacy scorer on a catalog code's raw keyword
list agrees with the optimized scorer on the normalized text and the
precompiled lowercase keyword set. -/
theorem C9_legacy_fast_agree (text : String) (code : String)
    (kws : List String) (h : lookupKeywords code = some kws) :
    calculate_keyword_score text kws =
      calculate_keyword_score_fast (normalize_text text) (lowerSet kws)
        (maxWords kws) := by
  obtain ⟨hnodup, hfacts⟩ := catalog_fact code kws h
  have hded : lowerSet kws = kws.map lowerStr := by
    rw [lowerSet]
    exact List.dedup_eq_self.2 hnodup
  rw [hded]
  exact legacy_fast_aux text kws (maxWords kws) hfacts

/-- Witness for C9 at a concrete text and code. -/
theorem C9_witness :
    calculate_keyword_score "  Petty CASH  "
      ["cash on hand", "petty cash", "касс", "бэлэн мөнгө", "кассан дахь"] =
      calculate_keyword_score_fast (normalize_text "  Petty CASH  ")
        (lowerSet ["cash on hand", "petty cash", "касс", "бэлэн мөнгө",
          "кассан дахь"])
        (maxWords ["cash on hand", "petty cash", "касс", "бэлэн мөнгө",
          "кассан дахь"]) :=
  C9_legacy_fast_agree "  Petty CASH  " "1111"
    ["cash on hand", "petty cash", "касс", "бэлэн мөнгө", "кассан дахь"] rfl

/-- Claim C10 (confirmed): every code the classifier returns, by any of the
three strategies, and every suggested code, is a member of the supplied
catalog set. -/
theorem C10_outputs_from_catalog (account : Account) (existing : List String) :
    (∀ c, find_best_mof_match_fast account existing = some c →
      c ∈ existing) ∧
    (∀ s ∈ get_suggestions_fast account existing, s.mof_code ∈ existing) := by
  constructor
  · intro c hc
    rcases find_best_cases account existing c hc with
      ⟨-, -, hm⟩ | ⟨-, -, hm⟩ | ⟨-, hcand⟩
    · exact hm
    · exact hm
    · exact (mem_of_candidate _ _ _ hcand).1
  · intro s hs
    exact (mem_suggestions account existing s hs).2.1

/-- Witness for C10 at a concrete account and catalog. -/
theorem C10_witness :
    (∀ c, find_best_mof_match_fast ⟨"1200", "Receivables", "Asset"⟩
        ["1200", "1201"] = some c → c ∈ ["1200", "1201"]) ∧
    (∀ s ∈ get_suggestions_fast ⟨"1200", "Receivables", "Asset"⟩
        ["1200", "1201"], s.mof_code ∈ ["1200", "1201"]) :=
  C10_outputs_from_catalog ⟨"1200", "Receivables", "Asset"⟩ ["1200", "1201"]

end EBalance
